import Mathlib

/-!
Verification of `LockFreeFixedSizeMemoryPool<T, N>`
(src/LockFreeFixedSizeMemoryPool.cpp).

The pool owns a cache-line-aligned byte buffer of `N * sizeof(T)` bytes, a
lock-free (Treiber) global free list threaded through the free slots, a
`static thread_local` cache head, and a heap fallback
(`new std::byte[sizeof(T)]`) when both are empty.

Shallow embedding conventions:
  - addresses are natural numbers; `0` is the null pointer;
  - the buffer starts at address `base`, slot `i` lives at `base + i * sz`
    where `sz = sizeof(T)`;
  - the intrusive free lists (global list, thread-local cache chain) are
    modelled as `List Nat` of slot addresses, head first, mirroring the
    pointer chains of the source;
  - heap allocation (`new std::byte[sizeof(T)]`) yields addresses from a
    stream `heap : Nat → Nat`; a legal stream returns nonzero addresses
    outside the buffer range that are 16-byte aligned, which is exactly the
    guarantee `operator new[]` gives for a plain byte array
    (`__STDCPP_DEFAULT_NEW_ALIGNMENT__` = 16 on mainstream platforms);
  - `delete[]` of a fallback pointer is recorded in `freedHeap`.
-/

namespace MemoryPool

/-- The C++ memory orders named at the atomic operations of the source. -/
inductive MemOrder where
  | relaxed
  | acquire
  | release
  | acq_rel
  | seq_cst
  deriving DecidableEq

/-- Memory order of the constructor's publication store
`freeList.store(head, std::memory_order_release)` (source line 55). -/
def ctorStoreOrder : MemOrder := MemOrder.release

/-- Memory order of `freeList.load` at the start of the global pop
(source line 72). -/
def popLoadOrder : MemOrder := MemOrder.acquire

/-- Memory order of `freeList.compare_exchange_weak` (source line 75). -/
def popCasOrder : MemOrder := MemOrder.acq_rel

/-- Address of slot `i`: `&buffer[i * sizeof(T)]`. -/
def slotAddr (base sz i : Nat) : Nat := base + i * sz

/-- The constructor's initialization loop (source lines 50-54):
`for (i = N; i > 0; --i) { node = &buffer[(i-1)*sizeof(T)]; node->next = head;
head = node; }`.  The accumulator is the chain built so far (head first). -/
def initLoop (base sz : Nat) : Nat → List Nat → List Nat
  | 0, head => head
  | i + 1, head => initLoop base sz i (slotAddr base sz i :: head)

/-- The global free list published by the constructor: slot 0 at the head,
slot `n - 1` at the tail. -/
def initFreeList (base n sz : Nat) : List Nat := initLoop base sz n []

/-- The range test of `deallocate` (source lines 95-96): true iff the pointer
lies outside `[base, base + n * sz)`, i.e. came from the heap fallback. -/
def fromHeapRange (base n sz p : Nat) : Bool :=
  decide (p < base) || decide (base + n * sz ≤ p)

/-- A legal stream of heap-fallback addresses: `new std::byte[sizeof(T)]`
returns a nonzero address outside the pool's buffer, aligned (only) to
the default new alignment of 16 bytes. -/
def HeapOk (base n sz : Nat) (heap : Nat → Nat) : Prop :=
  ∀ k, heap k ≠ 0 ∧ fromHeapRange base n sz (heap k) = true ∧ heap k % 16 = 0

/-- A concrete legal heap stream (16-byte aligned, disjoint from the small
buffers used in the concrete runs below, never 64-byte aligned). -/
def heapA : Nat → Nat := fun k => 4112 + 64 * k

/-! ## Single-threaded model

A single-threaded run of the source: the thread-local cache check, the CAS
pop (which succeeds on its first attempt when no other thread interferes),
and the heap fallback.  The concurrent interleaving semantics is developed
separately below for the no-double-issuance property. -/

/-- Which branch of `allocate` produced the result: the thread-local cache
(lines 66-70), the global free list CAS pop (lines 72-78), or the heap
fallback (lines 80-82). -/
inductive AllocPath where
  | cache
  | global
  | heap
  deriving DecidableEq

/-- Single-threaded pool state: the global free list, the calling thread's
`localCacheHead` chain, the addresses released by `delete[]`, and the index
of the next heap-fallback address. -/
structure PoolState where
  freeList : List Nat
  localCacheHead : List Nat
  freedHeap : List Nat
  heapNext : Nat
  deriving DecidableEq

/-- Pool state right after the constructor ran. -/
def initState (base n sz : Nat) : PoolState :=
  { freeList := initFreeList base n sz, localCacheHead := [], freedHeap := [], heapNext := 0 }

/-- `allocate()` (source lines 65-83), single-threaded.  Checks
`localCacheHead` first, then pops the global free list, and finally falls
back to `new std::byte[sizeof(T)]`. -/
def allocate (heap : Nat → Nat) (s : PoolState) : Nat × AllocPath × PoolState :=
  match s.localCacheHead with
  | cached :: rest => (cached, AllocPath.cache, { s with localCacheHead := rest })
  | [] =>
    match s.freeList with
    | head :: next => (head, AllocPath.global, { s with freeList := next })
    | [] => (heap s.heapNext, AllocPath.heap, { s with heapNext := s.heapNext + 1 })

/-- `deallocate(ptr)` (source lines 91-105): null is ignored, out-of-range
pointers are `delete[]`d, in-range pointers are pushed onto the calling
thread's `localCacheHead`. -/
def deallocate (base n sz : Nat) (s : PoolState) (p : Nat) : PoolState :=
  if p = 0 then s
  else if fromHeapRange base n sz p then { s with freedHeap := p :: s.freedHeap }
  else { s with localCacheHead := p :: s.localCacheHead }

/-- Run `k` successive `allocate()` calls, collecting address and branch. -/
def allocSeq (heap : Nat → Nat) : Nat → PoolState → List (Nat × AllocPath) × PoolState
  | 0, s => ([], s)
  | k + 1, s =>
    let r := allocate heap s
    let rest := allocSeq heap k r.2.2
    ((r.1, r.2.1) :: rest.1, rest.2)

/-! ## Two pool instances of the same instantiation

`localCacheHead` is declared `static thread_local` (source lines 40 and
111-112): it is a member of the class template instantiation
`LockFreeFixedSizeMemoryPool<T, N>`, not of a pool object, so on a given
thread every pool instance with the same `T` and `N` reads and writes the
same cache head.  The state below models one thread working with two such
instances: each instance has its own buffer (`base1`, `base2`) and its own
atomic `freeList`, but there is a single shared cache chain. -/

structure TwoPoolState where
  freeList1 : List Nat
  freeList2 : List Nat
  localCacheHead : List Nat
  freedHeap : List Nat
  heapNext : Nat
  deriving DecidableEq

/-- Both instances freshly constructed; the thread's shared cache is empty. -/
def twoPoolInit (base1 base2 n sz : Nat) : TwoPoolState :=
  { freeList1 := initFreeList base1 n sz, freeList2 := initFreeList base2 n sz,
    localCacheHead := [], freedHeap := [], heapNext := 0 }

/-- `allocate()` on the first instance: checks the shared `localCacheHead`
first, then the first instance's free list, then the heap fallback. -/
def allocate1 (heap : Nat → Nat) (s : TwoPoolState) : Nat × AllocPath × TwoPoolState :=
  match s.localCacheHead with
  | cached :: rest => (cached, AllocPath.cache, { s with localCacheHead := rest })
  | [] =>
    match s.freeList1 with
    | head :: next => (head, AllocPath.global, { s with freeList1 := next })
    | [] => (heap s.heapNext, AllocPath.heap, { s with heapNext := s.heapNext + 1 })

/-- `allocate()` on the second instance. -/
def allocate2 (heap : Nat → Nat) (s : TwoPoolState) : Nat × AllocPath × TwoPoolState :=
  match s.localCacheHead with
  | cached :: rest => (cached, AllocPath.cache, { s with localCacheHead := rest })
  | [] =>
    match s.freeList2 with
    | head :: next => (head, AllocPath.global, { s with freeList2 := next })
    | [] => (heap s.heapNext, AllocPath.heap, { s with heapNext := s.heapNext + 1 })

/-- `deallocate(ptr)` on the first instance: the range check is against the
first instance's buffer, the cache push lands in the shared cache. -/
def deallocate1 (base1 n sz : Nat) (s : TwoPoolState) (p : Nat) : TwoPoolState :=
  if p = 0 then s
  else if fromHeapRange base1 n sz p then { s with freedHeap := p :: s.freedHeap }
  else { s with localCacheHead := p :: s.localCacheHead }

/-- `deallocate(ptr)` on the second instance. -/
def deallocate2 (base2 n sz : Nat) (s : TwoPoolState) (p : Nat) : TwoPoolState :=
  if p = 0 then s
  else if fromHeapRange base2 n sz p then { s with freedHeap := p :: s.freedHeap }
  else { s with localCacheHead := p :: s.localCacheHead }

/-! ## Concurrent interleaving semantics

Any number of threads share one pool.  Primitive machine events are the
atomic operations of the source (`freeList.load`, the read of the popped
candidate's `next` field, `compare_exchange_weak`) and the thread-local
cache updates (which only touch the calling thread's own cache head and
memory the thread exclusively owns, hence are single events).  Between any
two events of one thread, arbitrary events of other threads may fire: the
window between a thread's `load`/`next`-read and its CAS is explicit in the
thread's program counter.

Reading `head->next` is only determined when `head` is still the current
head of the global list; in every other case the slot may have been handed
to a caller and overwritten, so the model lets the read return an arbitrary
value.  A CAS that succeeds while holding a stale `next` would splice
garbage into the list; the model records this outcome in a `corrupt` flag
and the development proves it unreachable (the free list of this source is
pop-only — `deallocate` never pushes back to it — so a popped node can
never reappear at the head and the ABA scenario cannot arise). -/

/-- Address at a list head as a pointer value: null for the empty list. -/
def headAddr : List Nat → Nat
  | [] => 0
  | a :: _ => a

/-- Program counter of one thread inside `allocate`'s global-list pop loop
(source lines 72-78). -/
inductive ThreadPC where
  | idle
  | midPop (h : Nat)
  | midCas (h nxt : Nat)
  deriving DecidableEq

/-- One thread: its program counter and its thread-local cache chain. -/
structure ThreadState where
  pc : ThreadPC
  localCacheHead : List Nat
  deriving DecidableEq

/-- Shared state: the global free list, every thread's state, the multiset
of live (allocated, not yet deallocated) addresses, and whether a stale CAS
ever corrupted the list. -/
structure MTState where
  freeList : List Nat
  threads : Nat → ThreadState
  live : List Nat
  corrupt : Bool

/-- Fresh pool, all threads idle with empty caches, nothing live. -/
def mtInit (base n sz : Nat) : MTState :=
  { freeList := initFreeList base n sz,
    threads := fun _ => ⟨ThreadPC.idle, []⟩,
    live := [], corrupt := false }

/-- One interleaving event of some thread `t`. -/
inductive Step (base n sz : Nat) : MTState → MTState → Prop where
  /-- `allocate` fast path (lines 66-70): pop the thread's own cache. -/
  | cachePop (s : MTState) (t a : Nat) (rest : List Nat) :
      (s.threads t).pc = ThreadPC.idle →
      (s.threads t).localCacheHead = a :: rest →
      Step base n sz s
        { s with threads := Function.update s.threads t ⟨ThreadPC.idle, rest⟩,
                 live := a :: s.live }
  /-- `head = freeList.load(acquire)` observes a non-null head (line 72). -/
  | loadHead (s : MTState) (t h : Nat) (rest : List Nat) :
      (s.threads t).pc = ThreadPC.idle →
      (s.threads t).localCacheHead = [] →
      s.freeList = h :: rest →
      Step base n sz s
        { s with threads := Function.update s.threads t ⟨ThreadPC.midPop h, []⟩ }
  /-- The load observes null, the loop is skipped, and the heap fallback
  returns a fresh heap address (lines 72-73 and 80-82). -/
  | loadHeadNull (s : MTState) (t a : Nat) :
      (s.threads t).pc = ThreadPC.idle →
      (s.threads t).localCacheHead = [] →
      s.freeList = [] →
      a ≠ 0 → fromHeapRange base n sz a = true → a ∉ s.live →
      Step base n sz s { s with live := a :: s.live }
  /-- `next = head->next` (line 74): determined only while `h` is still the
  current head; otherwise the read value is arbitrary. -/
  | readNext (s : MTState) (t h v : Nat) :
      (s.threads t).pc = ThreadPC.midPop h →
      (∀ rest, s.freeList = h :: rest → v = headAddr rest) →
      Step base n sz s
        { s with threads := (Function.update s.threads t
            ⟨ThreadPC.midCas h v, (s.threads t).localCacheHead⟩) }
  /-- The CAS succeeds with the `next` value that matches the list (line 75):
  a clean pop, `h` is returned to the caller. -/
  | casOk (s : MTState) (t h v : Nat) (rest : List Nat) :
      (s.threads t).pc = ThreadPC.midCas h v →
      s.freeList = h :: rest →
      v = headAddr rest →
      Step base n sz s
        { s with freeList := rest, live := h :: s.live,
                 threads := (Function.update s.threads t
                   ⟨ThreadPC.idle, (s.threads t).localCacheHead⟩) }
  /-- The CAS succeeds while the thread's `next` value is stale: the head now
  points at garbage.  Proved unreachable. -/
  | casStale (s : MTState) (t h v : Nat) (rest : List Nat) :
      (s.threads t).pc = ThreadPC.midCas h v →
      s.freeList = h :: rest →
      v ≠ headAddr rest →
      Step base n sz s { s with corrupt := true }
  /-- The CAS fails (head moved, or a spurious weak failure) and
  `compare_exchange_weak` reloads the expected value with the current
  non-null head; the loop retries (lines 73-77). -/
  | casFail (s : MTState) (t h v h' : Nat) (rest' : List Nat) :
      (s.threads t).pc = ThreadPC.midCas h v →
      s.freeList = h' :: rest' →
      Step base n sz s
        { s with threads := (Function.update s.threads t
            ⟨ThreadPC.midPop h', (s.threads t).localCacheHead⟩) }
  /-- The CAS fails and the reloaded head is null: the loop exits and the
  heap fallback returns a fresh heap address (lines 73 and 80-82). -/
  | casFailNull (s : MTState) (t h v a : Nat) :
      (s.threads t).pc = ThreadPC.midCas h v →
      s.freeList = [] →
      a ≠ 0 → fromHeapRange base n sz a = true → a ∉ s.live →
      Step base n sz s
        { s with live := a :: s.live,
                 threads := (Function.update s.threads t
                   ⟨ThreadPC.idle, (s.threads t).localCacheHead⟩) }
  /-- `deallocate` of a live in-range pointer (lines 101-104): pushed onto
  the calling thread's own cache. -/
  | deallocCache (s : MTState) (t p : Nat) :
      (s.threads t).pc = ThreadPC.idle →
      p ∈ s.live →
      fromHeapRange base n sz p = false →
      Step base n sz s
        { s with live := s.live.erase p,
                 threads := (Function.update s.threads t
                   ⟨ThreadPC.idle, p :: (s.threads t).localCacheHead⟩) }
  /-- `deallocate` of a live out-of-range pointer (lines 95-98): `delete[]`,
  the pool state is untouched. -/
  | deallocHeap (s : MTState) (t p : Nat) :
      (s.threads t).pc = ThreadPC.idle →
      p ∈ s.live →
      p ≠ 0 →
      fromHeapRange base n sz p = true →
      Step base n sz s { s with live := s.live.erase p }

/-- All states a fresh pool can reach under some interleaving. -/
def Reachable (base n sz : Nat) (s : MTState) : Prop :=
  Relation.ReflTransGen (Step base n sz) (mtInit base n sz) s

/-- A slot address of the pool. -/
def IsSlot (base n sz p : Nat) : Prop := ∃ i, i < n ∧ p = slotAddr base sz i

/-- The inductive invariant of the concurrent semantics: the list never got
corrupted; the global list, each thread's cache, and the live multiset are
duplicate-free and pairwise disjoint; list and cache members are genuine
slot addresses; live addresses are slots or heap-fallback addresses; and a
thread that is mid-pop holds either the current head (with, once read, the
matching `next` value) or an address that has left the list for good. -/
structure Inv (base n sz : Nat) (s : MTState) : Prop where
  notCorrupt : s.corrupt = false
  freeNodup : s.freeList.Nodup
  liveNodup : s.live.Nodup
  freeSlots : ∀ p ∈ s.freeList, IsSlot base n sz p
  cacheSlots : ∀ t, ∀ p ∈ (s.threads t).localCacheHead, IsSlot base n sz p
  cacheNodup : ∀ t, (s.threads t).localCacheHead.Nodup
  freeLive : ∀ p ∈ s.freeList, p ∉ s.live
  freeCache : ∀ t, ∀ p ∈ s.freeList, p ∉ (s.threads t).localCacheHead
  liveCache : ∀ t, ∀ p ∈ s.live, p ∉ (s.threads t).localCacheHead
  cacheCache : ∀ t t', t ≠ t' →
    ∀ p ∈ (s.threads t).localCacheHead, p ∉ (s.threads t').localCacheHead
  liveWf : ∀ p ∈ s.live, IsSlot base n sz p ∨ fromHeapRange base n sz p = true
  pcPop : ∀ t h, (s.threads t).pc = ThreadPC.midPop h →
    (∃ rest, s.freeList = h :: rest) ∨ h ∉ s.freeList
  pcCas : ∀ t h v, (s.threads t).pc = ThreadPC.midCas h v →
    (∃ rest, s.freeList = h :: rest ∧ v = headAddr rest) ∨ h ∉ s.freeList


/-- First demonstration state: on a fresh 4-slot pool of 8-byte slots at
base 64, thread 0 has loaded the head of the global free list (slot 64). -/
def mtDemo1 : MTState :=
  { mtInit 64 4 8 with
    threads := Function.update (mtInit 64 4 8).threads 0 ⟨ThreadPC.midPop 64, []⟩ }

/-- Second demonstration state: thread 0 has read the head's next link. -/
def mtDemo2 : MTState :=
  { mtDemo1 with
    threads := (Function.update mtDemo1.threads 0
      ⟨ThreadPC.midCas 64 72, (mtDemo1.threads 0).localCacheHead⟩) }

/-- Third demonstration state: thread 0's CAS succeeded and slot 64 is
live. -/
def mtDemo3 : MTState :=
  { mtDemo2 with
    freeList := [72, 80, 88],
    live := 64 :: mtDemo2.live,
    threads := (Function.update mtDemo2.threads 0
      ⟨ThreadPC.idle, (mtDemo2.threads 0).localCacheHead⟩) }

theorem initLoop_eq (base sz : Nat) :
    ∀ (m : Nat) (acc : List Nat),
      initLoop base sz m acc = (List.range m).map (slotAddr base sz) ++ acc := by
  intro m
  induction m with
  | zero => intro acc; simp [initLoop]
  | succ k ih =>
      intro acc
      rw [initLoop, ih, List.range_succ]
      simp

theorem initFreeList_eq (base n sz : Nat) :
    initFreeList base n sz = (List.range n).map (slotAddr base sz) := by
  simp [initFreeList, initLoop_eq]

theorem slotAddr_injective (base sz : Nat) (hsz : 0 < sz) :
    Function.Injective (slotAddr base sz) := by
  intro a b h
  simp only [slotAddr] at h
  have h2 : a * sz = b * sz := by omega
  exact Nat.eq_of_mul_eq_mul_right hsz h2

theorem initFreeList_nodup (base n sz : Nat) (hsz : 0 < sz) :
    (initFreeList base n sz).Nodup := by
  rw [initFreeList_eq]
  exact (List.nodup_range n).map (slotAddr_injective base sz hsz)

theorem mem_initFreeList (base n sz p : Nat) :
    p ∈ initFreeList base n sz ↔ ∃ i, i < n ∧ p = slotAddr base sz i := by
  rw [initFreeList_eq]
  simp [eq_comm]


theorem slotAddr_not_fromHeapRange (base n sz i : Nat) (hsz : 0 < sz) (hi : i < n) :
    fromHeapRange base n sz (slotAddr base sz i) = false := by
  simp only [fromHeapRange, slotAddr, Bool.or_eq_false_iff, decide_eq_false_iff_not, not_lt,
    not_le]
  constructor
  · omega
  · have : i * sz < n * sz := (Nat.mul_lt_mul_right hsz).mpr hi
    omega


theorem heapA_ok : HeapOk 64 4 64 heapA := by
  intro k
  refine ⟨by simp [heapA], ?_, ?_⟩
  · simp only [heapA, fromHeapRange, Bool.or_eq_true, decide_eq_true_eq]
    omega
  · simp only [heapA]
    omega


theorem isSlot_not_fromHeapRange (base n sz p : Nat) (hsz : 0 < sz)
    (hp : IsSlot base n sz p) : fromHeapRange base n sz p = false := by
  obtain ⟨i, hi, rfl⟩ := hp
  exact slotAddr_not_fromHeapRange base n sz i hsz hi


theorem inv_init (base n sz : Nat) (hsz : 0 < sz) : Inv base n sz (mtInit base n sz) := by
  refine ⟨rfl, initFreeList_nodup base n sz hsz, List.nodup_nil, ?_, ?_, ?_, ?_, ?_, ?_, ?_, ?_,
    ?_, ?_⟩
  · intro p hp
    exact (mem_initFreeList base n sz p).1 hp
  · intro t p hp
    simp [mtInit] at hp
  · intro t
    simp [mtInit]
  · intro p _
    simp [mtInit]
  · intro t p _
    simp [mtInit]
  · intro t p hp
    simp [mtInit] at hp
  · intro t t' _ p hp
    simp [mtInit] at hp
  · intro p hp
    simp [mtInit] at hp
  · intro t h hpc
    simp [mtInit] at hpc
  · intro t h v hpc
    simp [mtInit] at hpc

theorem inv_step (base n sz : Nat) (hsz : 0 < sz) (s s' : MTState)
    (hs : Inv base n sz s) (hstep : Step base n sz s s') : Inv base n sz s' := by
  cases hstep with
  | cachePop t a rest hpc hcache =>
      have hamem : a ∈ (s.threads t).localCacheHead := by rw [hcache]; exact List.mem_cons_self a rest
      have hanl : a ∉ s.live := fun hal => hs.liveCache t a hal hamem
      have hcnd := hs.cacheNodup t
      rw [hcache] at hcnd
      refine ⟨hs.notCorrupt, hs.freeNodup, List.nodup_cons.mpr ⟨hanl, hs.liveNodup⟩, hs.freeSlots,
        ?_, ?_, ?_, ?_, ?_, ?_, ?_, ?_, ?_⟩ <;> try dsimp only
      · intro u p hp
        by_cases hu : u = t
        · subst hu
          simp only [Function.update_same] at hp
          exact hs.cacheSlots u p (by rw [hcache]; exact List.mem_cons_of_mem a hp)
        · simp only [Function.update_noteq hu] at hp
          exact hs.cacheSlots u p hp
      · intro u
        by_cases hu : u = t
        · subst hu
          simp only [Function.update_same]
          exact (List.nodup_cons.mp hcnd).2
        · simp only [Function.update_noteq hu]
          exact hs.cacheNodup u
      · intro p hp
        have h1 := hs.freeLive p hp
        have h2 := hs.freeCache t p hp
        simp only [List.mem_cons]
        rintro (rfl | hpl)
        · exact h2 hamem
        · exact h1 hpl
      · intro u p hp
        by_cases hu : u = t
        · subst hu
          simp only [Function.update_same]
          intro hpr
          exact hs.freeCache u p hp (by rw [hcache]; exact List.mem_cons_of_mem a hpr)
        · simp only [Function.update_noteq hu]
          exact hs.freeCache u p hp
      · intro u p hp
        simp only [List.mem_cons] at hp
        by_cases hu : u = t
        · subst hu
          simp only [Function.update_same]
          rcases hp with rfl | hpl
          · exact (List.nodup_cons.mp hcnd).1
          · intro hpr
            exact hs.liveCache u p hpl (by rw [hcache]; exact List.mem_cons_of_mem a hpr)
        · simp only [Function.update_noteq hu]
          rcases hp with rfl | hpl
          · exact fun hpc' => hs.cacheCache t u (fun he => hu he.symm) p hamem hpc'
          · exact hs.liveCache u p hpl
      · intro u u' huu p hp
        by_cases hu : u = t
        · subst hu
          simp only [Function.update_same] at hp
          simp only [Function.update_noteq (fun he => huu he.symm)]
          exact hs.cacheCache u u' huu p (by rw [hcache]; exact List.mem_cons_of_mem a hp)
        · simp only [Function.update_noteq hu] at hp
          by_cases hu' : u' = t
          · subst hu'
            simp only [Function.update_same]
            intro hpr
            exact hs.cacheCache u u' huu p hp (by rw [hcache]; exact List.mem_cons_of_mem a hpr)
          · simp only [Function.update_noteq hu']
            exact hs.cacheCache u u' huu p hp
      · intro p hp
        simp only [List.mem_cons] at hp
        rcases hp with rfl | hpl
        · exact Or.inl (hs.cacheSlots t p hamem)
        · exact hs.liveWf p hpl
      · intro u h hpc'
        by_cases hu : u = t
        · subst hu
          simp only [Function.update_same] at hpc'
          exact absurd hpc' (by simp)
        · simp only [Function.update_noteq hu] at hpc'
          exact hs.pcPop u h hpc'
      · intro u h v hpc'
        by_cases hu : u = t
        · subst hu
          simp only [Function.update_same] at hpc'
          exact absurd hpc' (by simp)
        · simp only [Function.update_noteq hu] at hpc'
          exact hs.pcCas u h v hpc'
  | loadHead t h rest hpc hcache hfree =>
      refine ⟨hs.notCorrupt, hs.freeNodup, hs.liveNodup, hs.freeSlots, ?_, ?_, hs.freeLive, ?_,
        ?_, ?_, hs.liveWf, ?_, ?_⟩ <;> try dsimp only
      · intro u p hp
        by_cases hu : u = t
        · subst hu; simp only [Function.update_same] at hp; simp at hp
        · simp only [Function.update_noteq hu] at hp
          exact hs.cacheSlots u p hp
      · intro u
        by_cases hu : u = t
        · subst hu; simp only [Function.update_same]; exact List.nodup_nil
        · simp only [Function.update_noteq hu]; exact hs.cacheNodup u
      · intro u p hp
        by_cases hu : u = t
        · subst hu; simp only [Function.update_same]; simp
        · simp only [Function.update_noteq hu]; exact hs.freeCache u p hp
      · intro u p hp
        by_cases hu : u = t
        · subst hu; simp only [Function.update_same]; simp
        · simp only [Function.update_noteq hu]; exact hs.liveCache u p hp
      · intro u u' huu p hp
        by_cases hu : u = t
        · subst hu; simp only [Function.update_same] at hp; simp at hp
        · simp only [Function.update_noteq hu] at hp
          by_cases hu' : u' = t
          · subst hu'; simp only [Function.update_same]; simp
          · simp only [Function.update_noteq hu']; exact hs.cacheCache u u' huu p hp
      · intro u h' hpc'
        by_cases hu : u = t
        · subst hu
          simp only [Function.update_same] at hpc'
          simp only [ThreadPC.midPop.injEq] at hpc'
          subst hpc'
          exact Or.inl ⟨rest, hfree⟩
        · simp only [Function.update_noteq hu] at hpc'
          exact hs.pcPop u h' hpc'
      · intro u h' v hpc'
        by_cases hu : u = t
        · subst hu; simp only [Function.update_same] at hpc'; exact absurd hpc' (by simp)
        · simp only [Function.update_noteq hu] at hpc'
          exact hs.pcCas u h' v hpc'
  | loadHeadNull t a hpc hcache hfree ha0 har hanl =>
      refine ⟨hs.notCorrupt, hs.freeNodup, List.nodup_cons.mpr ⟨hanl, hs.liveNodup⟩, hs.freeSlots,
        hs.cacheSlots, hs.cacheNodup, ?_, hs.freeCache, ?_, hs.cacheCache, ?_, hs.pcPop, hs.pcCas⟩ <;> try dsimp only
      · intro p hp
        rw [hfree] at hp
        simp at hp
      · intro u p hp
        simp only [List.mem_cons] at hp
        rcases hp with rfl | hpl
        · intro hpr
          have := isSlot_not_fromHeapRange base n sz p hsz (hs.cacheSlots u p hpr)
          rw [har] at this
          exact Bool.noConfusion this
        · exact hs.liveCache u p hpl
      · intro p hp
        simp only [List.mem_cons] at hp
        rcases hp with rfl | hpl
        · exact Or.inr har
        · exact hs.liveWf p hpl
  | readNext t h v hpc hv =>
      refine ⟨hs.notCorrupt, hs.freeNodup, hs.liveNodup, hs.freeSlots, ?_, ?_, hs.freeLive, ?_,
        ?_, ?_, hs.liveWf, ?_, ?_⟩ <;> try dsimp only
      · intro u p hp
        by_cases hu : u = t
        · subst hu; simp only [Function.update_same] at hp; exact hs.cacheSlots u p hp
        · simp only [Function.update_noteq hu] at hp; exact hs.cacheSlots u p hp
      · intro u
        by_cases hu : u = t
        · subst hu; simp only [Function.update_same]; exact hs.cacheNodup u
        · simp only [Function.update_noteq hu]; exact hs.cacheNodup u
      · intro u p hp
        by_cases hu : u = t
        · subst hu; simp only [Function.update_same]; exact hs.freeCache u p hp
        · simp only [Function.update_noteq hu]; exact hs.freeCache u p hp
      · intro u p hp
        by_cases hu : u = t
        · subst hu; simp only [Function.update_same]; exact hs.liveCache u p hp
        · simp only [Function.update_noteq hu]; exact hs.liveCache u p hp
      · intro u u' huu p hp
        by_cases hu : u = t
        · subst hu
          simp only [Function.update_same] at hp
          by_cases hu' : u' = u
          · exact absurd hu'.symm huu
          · simp only [Function.update_noteq hu']; exact hs.cacheCache u u' huu p hp
        · simp only [Function.update_noteq hu] at hp
          by_cases hu' : u' = t
          · subst hu'; simp only [Function.update_same]; exact hs.cacheCache u u' huu p hp
          · simp only [Function.update_noteq hu']; exact hs.cacheCache u u' huu p hp
      · intro u h' hpc'
        by_cases hu : u = t
        · subst hu; simp only [Function.update_same] at hpc'; exact absurd hpc' (by simp)
        · simp only [Function.update_noteq hu] at hpc'; exact hs.pcPop u h' hpc'
      · intro u h' v' hpc'
        by_cases hu : u = t
        · subst hu
          simp only [Function.update_same] at hpc'
          simp only [ThreadPC.midCas.injEq] at hpc'
          obtain ⟨rfl, rfl⟩ := hpc'
          rcases hs.pcPop u h hpc with ⟨rest, hfl⟩ | hnm
          · exact Or.inl ⟨rest, hfl, hv rest hfl⟩
          · exact Or.inr hnm
        · simp only [Function.update_noteq hu] at hpc'
          exact hs.pcCas u h' v' hpc'
  | casOk t h v rest hpc hfree hv =>
      have hhm : h ∈ s.freeList := by rw [hfree]; exact List.mem_cons_self h rest
      have hfl := hs.freeNodup
      rw [hfree] at hfl
      have hhr : h ∉ rest := (List.nodup_cons.mp hfl).1
      have hrsub : ∀ p ∈ rest, p ∈ s.freeList := by
        intro p hp; rw [hfree]; exact List.mem_cons_of_mem h hp
      refine ⟨hs.notCorrupt, (List.nodup_cons.mp hfl).2,
        List.nodup_cons.mpr ⟨hs.freeLive h hhm, hs.liveNodup⟩, ?_, ?_, ?_, ?_, ?_, ?_, ?_, ?_,
        ?_, ?_⟩ <;> try dsimp only
      · intro p hp
        exact hs.freeSlots p (hrsub p hp)
      · intro u p hp
        by_cases hu : u = t
        · subst hu; simp only [Function.update_same] at hp; exact hs.cacheSlots u p hp
        · simp only [Function.update_noteq hu] at hp; exact hs.cacheSlots u p hp
      · intro u
        by_cases hu : u = t
        · subst hu; simp only [Function.update_same]; exact hs.cacheNodup u
        · simp only [Function.update_noteq hu]; exact hs.cacheNodup u
      · intro p hp
        simp only [List.mem_cons]
        rintro (rfl | hpl)
        · exact hhr hp
        · exact hs.freeLive p (hrsub p hp) hpl
      · intro u p hp
        by_cases hu : u = t
        · subst hu; simp only [Function.update_same]; exact hs.freeCache u p (hrsub p hp)
        · simp only [Function.update_noteq hu]; exact hs.freeCache u p (hrsub p hp)
      · intro u p hp
        simp only [List.mem_cons] at hp
        have hcc : p ∈ s.live ∨ p = h := by tauto
        by_cases hu : u = t
        · subst hu
          simp only [Function.update_same]
          rcases hcc with hpl | rfl
          · exact hs.liveCache u p hpl
          · exact hs.freeCache u p hhm
        · simp only [Function.update_noteq hu]
          rcases hcc with hpl | rfl
          · exact hs.liveCache u p hpl
          · exact hs.freeCache u p hhm
      · intro u u' huu p hp
        by_cases hu : u = t
        · subst hu
          simp only [Function.update_same] at hp
          by_cases hu' : u' = u
          · exact absurd hu'.symm huu
          · simp only [Function.update_noteq hu']; exact hs.cacheCache u u' huu p hp
        · simp only [Function.update_noteq hu] at hp
          by_cases hu' : u' = t
          · subst hu'; simp only [Function.update_same]; exact hs.cacheCache u u' huu p hp
          · simp only [Function.update_noteq hu']; exact hs.cacheCache u u' huu p hp
      · intro p hp
        simp only [List.mem_cons] at hp
        rcases hp with rfl | hpl
        · exact Or.inl (hs.freeSlots p hhm)
        · exact hs.liveWf p hpl
      · intro u h' hpc'
        by_cases hu : u = t
        · subst hu; simp only [Function.update_same] at hpc'; exact absurd hpc' (by simp)
        · simp only [Function.update_noteq hu] at hpc'
          rcases hs.pcPop u h' hpc' with ⟨r, hflr⟩ | hnm
          · rw [hfree] at hflr
            injection hflr with h1 h2
            subst h1
            subst h2
            exact Or.inr hhr
          · exact Or.inr fun hc => hnm (hrsub h' hc)
      · intro u h' v' hpc'
        by_cases hu : u = t
        · subst hu; simp only [Function.update_same] at hpc'; exact absurd hpc' (by simp)
        · simp only [Function.update_noteq hu] at hpc'
          rcases hs.pcCas u h' v' hpc' with ⟨r, hflr, _⟩ | hnm
          · rw [hfree] at hflr
            injection hflr with h1 h2
            subst h1
            subst h2
            exact Or.inr hhr
          · exact Or.inr fun hc => hnm (hrsub h' hc)
  | casStale t h v rest hpc hfree hv =>
      exfalso
      rcases hs.pcCas t h v hpc with ⟨r, hflr, hveq⟩ | hnm
      · rw [hfree] at hflr
        injection hflr with h1 h2
        subst h2
        exact hv hveq
      · exact hnm (by rw [hfree]; exact List.mem_cons_self h rest)
  | casFail t h v h' rest' hpc hfree =>
      refine ⟨hs.notCorrupt, hs.freeNodup, hs.liveNodup, hs.freeSlots, ?_, ?_, hs.freeLive, ?_,
        ?_, ?_, hs.liveWf, ?_, ?_⟩ <;> try dsimp only
      · intro u p hp
        by_cases hu : u = t
        · subst hu; simp only [Function.update_same] at hp; exact hs.cacheSlots u p hp
        · simp only [Function.update_noteq hu] at hp; exact hs.cacheSlots u p hp
      · intro u
        by_cases hu : u = t
        · subst hu; simp only [Function.update_same]; exact hs.cacheNodup u
        · simp only [Function.update_noteq hu]; exact hs.cacheNodup u
      · intro u p hp
        by_cases hu : u = t
        · subst hu; simp only [Function.update_same]; exact hs.freeCache u p hp
        · simp only [Function.update_noteq hu]; exact hs.freeCache u p hp
      · intro u p hp
        by_cases hu : u = t
        · subst hu; simp only [Function.update_same]; exact hs.liveCache u p hp
        · simp only [Function.update_noteq hu]; exact hs.liveCache u p hp
      · intro u u' huu p hp
        by_cases hu : u = t
        · subst hu
          simp only [Function.update_same] at hp
          by_cases hu' : u' = u
          · exact absurd hu'.symm huu
          · simp only [Function.update_noteq hu']; exact hs.cacheCache u u' huu p hp
        · simp only [Function.update_noteq hu] at hp
          by_cases hu' : u' = t
          · subst hu'; simp only [Function.update_same]; exact hs.cacheCache u u' huu p hp
          · simp only [Function.update_noteq hu']; exact hs.cacheCache u u' huu p hp
      · intro u h'' hpc'
        by_cases hu : u = t
        · subst hu
          simp only [Function.update_same] at hpc'
          simp only [ThreadPC.midPop.injEq] at hpc'
          subst hpc'
          exact Or.inl ⟨rest', hfree⟩
        · simp only [Function.update_noteq hu] at hpc'; exact hs.pcPop u h'' hpc'
      · intro u h'' v' hpc'
        by_cases hu : u = t
        · subst hu; simp only [Function.update_same] at hpc'; exact absurd hpc' (by simp)
        · simp only [Function.update_noteq hu] at hpc'; exact hs.pcCas u h'' v' hpc'
  | casFailNull t h v a hpc hfree ha0 har hanl =>
      refine ⟨hs.notCorrupt, hs.freeNodup, List.nodup_cons.mpr ⟨hanl, hs.liveNodup⟩, hs.freeSlots,
        ?_, ?_, ?_, ?_, ?_, ?_, ?_, ?_, ?_⟩ <;> try dsimp only
      · intro u p hp
        by_cases hu : u = t
        · subst hu; simp only [Function.update_same] at hp; exact hs.cacheSlots u p hp
        · simp only [Function.update_noteq hu] at hp; exact hs.cacheSlots u p hp
      · intro u
        by_cases hu : u = t
        · subst hu; simp only [Function.update_same]; exact hs.cacheNodup u
        · simp only [Function.update_noteq hu]; exact hs.cacheNodup u
      · intro p hp
        rw [hfree] at hp
        simp at hp
      · intro u p hp
        by_cases hu : u = t
        · subst hu; simp only [Function.update_same]; exact hs.freeCache u p hp
        · simp only [Function.update_noteq hu]; exact hs.freeCache u p hp
      · intro u p hp
        simp only [List.mem_cons] at hp
        have hnc : p ∉ (s.threads u).localCacheHead := by
          rcases hp with rfl | hpl
          · intro hpr
            have := isSlot_not_fromHeapRange base n sz p hsz (hs.cacheSlots u p hpr)
            rw [har] at this
            exact Bool.noConfusion this
          · exact hs.liveCache u p hpl
        by_cases hu : u = t
        · subst hu; simp only [Function.update_same]; exact hnc
        · simp only [Function.update_noteq hu]; exact hnc
      · intro u u' huu p hp
        by_cases hu : u = t
        · subst hu
          simp only [Function.update_same] at hp
          by_cases hu' : u' = u
          · exact absurd hu'.symm huu
          · simp only [Function.update_noteq hu']; exact hs.cacheCache u u' huu p hp
        · simp only [Function.update_noteq hu] at hp
          by_cases hu' : u' = t
          · subst hu'; simp only [Function.update_same]; exact hs.cacheCache u u' huu p hp
          · simp only [Function.update_noteq hu']; exact hs.cacheCache u u' huu p hp
      · intro p hp
        simp only [List.mem_cons] at hp
        rcases hp with rfl | hpl
        · exact Or.inr har
        · exact hs.liveWf p hpl
      · intro u h' hpc'
        by_cases hu : u = t
        · subst hu; simp only [Function.update_same] at hpc'; exact absurd hpc' (by simp)
        · simp only [Function.update_noteq hu] at hpc'; exact hs.pcPop u h' hpc'
      · intro u h' v' hpc'
        by_cases hu : u = t
        · subst hu; simp only [Function.update_same] at hpc'; exact absurd hpc' (by simp)
        · simp only [Function.update_noteq hu] at hpc'; exact hs.pcCas u h' v' hpc'
  | deallocCache t p hpc hlive hrange =>
      have hps : IsSlot base n sz p := by
        rcases hs.liveWf p hlive with hsl | hhr
        · exact hsl
        · rw [hrange] at hhr
          exact absurd hhr Bool.false_ne_true
      have hpnc : ∀ u, p ∉ (s.threads u).localCacheHead := fun u => hs.liveCache u p hlive
      have hsub : ∀ q ∈ s.live.erase p, q ∈ s.live := fun q hq => List.mem_of_mem_erase hq
      have herase : ∀ q ∈ s.live.erase p, q ≠ p := by
        intro q hq
        exact ((hs.liveNodup.mem_erase_iff).1 hq).1
      refine ⟨hs.notCorrupt, hs.freeNodup, hs.liveNodup.erase p, hs.freeSlots, ?_, ?_, ?_, ?_,
        ?_, ?_, ?_, ?_, ?_⟩ <;> try dsimp only
      · intro u q hq
        by_cases hu : u = t
        · subst hu
          simp only [Function.update_same] at hq
          simp only [List.mem_cons] at hq
          rcases hq with rfl | hql
          · exact hps
          · exact hs.cacheSlots u q hql
        · simp only [Function.update_noteq hu] at hq; exact hs.cacheSlots u q hq
      · intro u
        by_cases hu : u = t
        · subst hu
          simp only [Function.update_same]
          exact List.nodup_cons.mpr ⟨hpnc u, hs.cacheNodup u⟩
        · simp only [Function.update_noteq hu]; exact hs.cacheNodup u
      · intro q hq
        intro hql
        exact hs.freeLive q hq (hsub q hql)
      · intro u q hq
        have hqp : q ≠ p := fun he => hs.freeLive q hq (he ▸ hlive)
        by_cases hu : u = t
        · subst hu
          simp only [Function.update_same]
          simp only [List.mem_cons]
          rintro (rfl | hqr)
          · exact hqp rfl
          · exact hs.freeCache u q hq hqr
        · simp only [Function.update_noteq hu]; exact hs.freeCache u q hq
      · intro u q hq
        have hq1 := hsub q hq
        have hq2 := herase q hq
        by_cases hu : u = t
        · subst hu
          simp only [Function.update_same]
          simp only [List.mem_cons]
          rintro (rfl | hqr)
          · exact hq2 rfl
          · exact hs.liveCache u q hq1 hqr
        · simp only [Function.update_noteq hu]; exact hs.liveCache u q hq1
      · intro u u' huu q hq
        by_cases hu : u = t
        · subst hu
          simp only [Function.update_same] at hq
          simp only [Function.update_noteq (fun he => huu he.symm)]
          simp only [List.mem_cons] at hq
          rcases hq with rfl | hql
          · exact hpnc u'
          · exact hs.cacheCache u u' huu q hql
        · simp only [Function.update_noteq hu] at hq
          by_cases hu' : u' = t
          · subst hu'
            simp only [Function.update_same]
            simp only [List.mem_cons]
            rintro (rfl | hqr)
            · exact hpnc u hq
            · exact hs.cacheCache u u' huu q hq hqr
          · simp only [Function.update_noteq hu']; exact hs.cacheCache u u' huu q hq
      · intro q hq
        exact hs.liveWf q (hsub q hq)
      · intro u h' hpc'
        by_cases hu : u = t
        · subst hu; simp only [Function.update_same] at hpc'; exact absurd hpc' (by simp)
        · simp only [Function.update_noteq hu] at hpc'; exact hs.pcPop u h' hpc'
      · intro u h' v' hpc'
        by_cases hu : u = t
        · subst hu; simp only [Function.update_same] at hpc'; exact absurd hpc' (by simp)
        · simp only [Function.update_noteq hu] at hpc'; exact hs.pcCas u h' v' hpc'
  | deallocHeap t p hpc hlive hp0 hrange =>
      have hsub : ∀ q ∈ s.live.erase p, q ∈ s.live := fun q hq => List.mem_of_mem_erase hq
      exact ⟨hs.notCorrupt, hs.freeNodup, hs.liveNodup.erase p, hs.freeSlots, hs.cacheSlots,
        hs.cacheNodup, fun q hq hql => hs.freeLive q hq (hsub q hql), hs.freeCache,
        fun u q hq => hs.liveCache u q (hsub q hq), hs.cacheCache,
        fun q hq => hs.liveWf q (hsub q hq), hs.pcPop, hs.pcCas⟩

theorem inv_reachable (base n sz : Nat) (hsz : 0 < sz) (s : MTState)
    (hreach : Reachable base n sz s) : Inv base n sz s := by
  induction hreach with
  | refl => exact inv_init base n sz hsz
  | tail _ hstep ih => exact inv_step base n sz hsz _ _ ih hstep


/-! ## Demonstration execution -/

theorem mtDemo_step1 : Step 64 4 8 (mtInit 64 4 8) mtDemo1 :=
  Step.loadHead (mtInit 64 4 8) 0 64 [72, 80, 88] (by decide) (by decide) (by decide)

theorem mtDemo_step2 : Step 64 4 8 mtDemo1 mtDemo2 := by
  have hfl : mtDemo1.freeList = [64, 72, 80, 88] := by decide
  refine Step.readNext mtDemo1 0 64 72 (by decide) ?_
  intro rest hr
  rw [hfl] at hr
  injection hr with h1 h2
  subst h2
  rfl

theorem mtDemo_step3 : Step 64 4 8 mtDemo2 mtDemo3 :=
  Step.casOk mtDemo2 0 64 72 [72, 80, 88] (by decide) (by decide) (by decide)

theorem mtDemo3_reachable : Reachable 64 4 8 mtDemo3 :=
  Relation.ReflTransGen.tail
    (Relation.ReflTransGen.tail (Relation.ReflTransGen.single mtDemo_step1) mtDemo_step2)
    mtDemo_step3

/-! ## The claims -/

/-- C1: for any interleaving of `allocate`/`deallocate` across any number
of threads on one pool, at no instant do two live (allocated and not yet
deallocated) pointers hold the same address: in every reachable state of
the interleaving semantics the list of live addresses has no duplicate. -/
theorem c1_no_double_issuance (base n sz : Nat) (hsz : 0 < sz) (s : MTState)
    (hreach : Reachable base n sz s) : s.live.Nodup :=
  (inv_reachable base n sz hsz s hreach).liveNodup

/-- Witness for C1: a concrete three-event execution in which thread 0 pops
slot 64 from a fresh 4-slot pool. -/
theorem c1_no_double_issuance_witness : mtDemo3.live.Nodup :=
  c1_no_double_issuance 64 4 8 (by decide) mtDemo3 mtDemo3_reachable

/-- C2: after construction with capacity `n`, every one of the `n` slot
addresses is on the global free list exactly once, and the head is
published with a release store. -/
theorem c2_construction_all_slots_once (base n sz : Nat) (hsz : 0 < sz) :
    (∀ i, i < n → (initFreeList base n sz).count (slotAddr base sz i) = 1)
    ∧ (initFreeList base n sz).length = n
    ∧ (initFreeList base n sz).Nodup
    ∧ ctorStoreOrder = MemOrder.release := by
  refine ⟨?_, ?_, initFreeList_nodup base n sz hsz, rfl⟩
  · intro i hi
    refine List.count_eq_one_of_mem (initFreeList_nodup base n sz hsz) ?_
    exact (mem_initFreeList base n sz _).2 ⟨i, hi, rfl⟩
  · rw [initFreeList_eq]
    simp

/-- Witness for C2 on a concrete 4-slot pool of 8-byte slots at base 64. -/
theorem c2_construction_all_slots_once_witness :
    (initFreeList 64 4 8).count (slotAddr 64 8 2) = 1 ∧ (initFreeList 64 4 8).length = 4 :=
  ⟨(c2_construction_all_slots_once 64 4 8 (by decide)).1 2 (by decide),
   (c2_construction_all_slots_once 64 4 8 (by decide)).2.1⟩

/-- C3: in single-threaded use, `deallocate(p)` of a backing-store pointer
immediately followed by `allocate()` returns `p` again (the cache fast
path), and when the thread-local cache is empty the global free list also
hands back its head deterministically. -/
theorem c3_single_thread_determinism (base n sz : Nat) (heap : Nat → Nat) :
    (∀ (s : PoolState) (p : Nat), p ≠ 0 → fromHeapRange base n sz p = false →
      (allocate heap (deallocate base n sz s p)).1 = p)
    ∧ (∀ (s : PoolState) (p : Nat) (rest : List Nat),
        s.localCacheHead = [] → s.freeList = p :: rest → (allocate heap s).1 = p) := by
  constructor
  · intro s p hp0 hpr
    simp [deallocate, hp0, hpr, allocate]
  · intro s p rest hc hf
    simp [allocate, hc, hf]

/-- Witness for C3: slot 64 of a fresh pool round-trips, and a fresh pool's
global list head is returned on a cache miss. -/
theorem c3_single_thread_determinism_witness :
    (allocate heapA (deallocate 64 4 8 (initState 64 4 8) 64)).1 = 64
    ∧ (allocate heapA (initState 64 4 8)).1 = 64 :=
  ⟨(c3_single_thread_determinism 64 4 8 heapA).1 (initState 64 4 8) 64 (by decide) (by decide),
   (c3_single_thread_determinism 64 4 8 heapA).2 (initState 64 4 8) 64 [72, 80, 88]
     (by decide) (by decide)⟩

/-- C4 counterexample: on a fresh pool with 4 slots (element size 64,
matching the repository's `Order`), the fifth `allocate()` does not report
exhaustion: it returns a usable non-null heap pointer (here 4112, from a
legal `operator new[]` address stream), so there is no distinguishable
no-capacity result. -/
theorem c4_counterexample :
    (allocSeq heapA 5 (initState 64 4 64)).1 =
      [(64, AllocPath.global), (128, AllocPath.global), (192, AllocPath.global),
       (256, AllocPath.global), (4112, AllocPath.heap)]
    ∧ (4112 : Nat) ≠ 0 ∧ fromHeapRange 64 4 64 4112 = true := by
  decide

/-- C4 as amended: on a fresh pool with capacity 4, four successive
single-threaded `allocate()` calls return the four distinct non-null
backing-store slots, and a fifth call falls back to the heap (Overflow
mode): it returns a non-null address outside the backing store, not an
exhausted-signal. -/
theorem c4_exhaustion_heap_fallback (base sz : Nat) (heap : Nat → Nat)
    (hb : 0 < base) (hsz : 0 < sz) (hheap : HeapOk base 4 sz heap) :
    (allocSeq heap 5 (initState base 4 sz)).1 =
      [(slotAddr base sz 0, AllocPath.global), (slotAddr base sz 1, AllocPath.global),
       (slotAddr base sz 2, AllocPath.global), (slotAddr base sz 3, AllocPath.global),
       (heap 0, AllocPath.heap)]
    ∧ ([slotAddr base sz 0, slotAddr base sz 1, slotAddr base sz 2,
        slotAddr base sz 3] : List Nat).Nodup
    ∧ (∀ i, i < 4 → slotAddr base sz i ≠ 0 ∧ fromHeapRange base 4 sz (slotAddr base sz i) = false)
    ∧ heap 0 ≠ 0 ∧ fromHeapRange base 4 sz (heap 0) = true := by
  have hfl : initFreeList base 4 sz =
      [slotAddr base sz 0, slotAddr base sz 1, slotAddr base sz 2, slotAddr base sz 3] := by
    rw [initFreeList_eq]
    rfl
  refine ⟨?_, ?_, ?_, (hheap 0).1, (hheap 0).2.1⟩
  · simp [allocSeq, allocate, initState, hfl]
  · have he : ([slotAddr base sz 0, slotAddr base sz 1, slotAddr base sz 2,
        slotAddr base sz 3] : List Nat) = (List.range 4).map (slotAddr base sz) := rfl
    rw [he]
    exact (List.nodup_range 4).map (slotAddr_injective base sz hsz)
  · intro i hi
    have hle : base ≤ slotAddr base sz i := Nat.le_add_right base (i * sz)
    exact ⟨by omega, slotAddr_not_fromHeapRange base 4 sz i hsz hi⟩

/-- Witness for C4's amended statement at the concrete `Order`
instantiation. -/
theorem c4_exhaustion_heap_fallback_witness :
    heapA 0 ≠ 0 ∧ fromHeapRange 64 4 64 (heapA 0) = true :=
  ⟨(c4_exhaustion_heap_fallback 64 64 heapA (by decide) (by decide) heapA_ok).2.2.2.1,
   (c4_exhaustion_heap_fallback 64 64 heapA (by decide) (by decide) heapA_ok).2.2.2.2⟩

/-- C5: `allocate` takes from the thread-local cache if non-empty,
otherwise pops the global free list if non-empty, and only when both are
empty invokes the overflow policy, which takes one element's storage from
the heap stream and returns it. -/
theorem c5_allocate_priority (heap : Nat → Nat) :
    (∀ (s : PoolState) (a : Nat) (rest : List Nat), s.localCacheHead = a :: rest →
      allocate heap s = (a, AllocPath.cache, { s with localCacheHead := rest }))
    ∧ (∀ (s : PoolState) (h : Nat) (rest : List Nat),
        s.localCacheHead = [] → s.freeList = h :: rest →
        allocate heap s = (h, AllocPath.global, { s with freeList := rest }))
    ∧ (∀ (s : PoolState), s.localCacheHead = [] → s.freeList = [] →
        allocate heap s =
          (heap s.heapNext, AllocPath.heap, { s with heapNext := s.heapNext + 1 })) := by
  refine ⟨?_, ?_, ?_⟩
  · intro s a rest hc
    simp [allocate, hc]
  · intro s h rest hc hf
    simp [allocate, hc, hf]
  · intro s hc hf
    simp [allocate, hc, hf]

/-- Witness for C5: the three branches on concrete states. -/
theorem c5_allocate_priority_witness :
    allocate heapA { freeList := [72], localCacheHead := [80], freedHeap := [], heapNext := 0 } =
      (80, AllocPath.cache, { freeList := [72], localCacheHead := [], freedHeap := [], heapNext := 0 })
    ∧ allocate heapA { freeList := [72], localCacheHead := [], freedHeap := [], heapNext := 0 } =
      (72, AllocPath.global, { freeList := [], localCacheHead := [], freedHeap := [], heapNext := 0 })
    ∧ allocate heapA { freeList := [], localCacheHead := [], freedHeap := [], heapNext := 0 } =
      (4112, AllocPath.heap, { freeList := [], localCacheHead := [], freedHeap := [], heapNext := 1 }) :=
  ⟨(c5_allocate_priority heapA).1 _ 80 [] rfl,
   (c5_allocate_priority heapA).2.1 _ 72 [] rfl rfl,
   (c5_allocate_priority heapA).2.2 _ rfl rfl⟩

/-- C6: every non-null pointer inside the backing store's range is routed
by `deallocate` to the calling thread's local cache, and every non-null
pointer outside that range is released back to the heap and enters no free
list (the free list and cache are unchanged). -/
theorem c6_deallocate_routing (base n sz : Nat) :
    (∀ (s : PoolState) (p : Nat), p ≠ 0 → fromHeapRange base n sz p = false →
      deallocate base n sz s p = { s with localCacheHead := p :: s.localCacheHead })
    ∧ (∀ (s : PoolState) (p : Nat), p ≠ 0 → fromHeapRange base n sz p = true →
      deallocate base n sz s p = { s with freedHeap := p :: s.freedHeap }) := by
  constructor
  · intro s p hp0 hpr
    simp [deallocate, hp0, hpr]
  · intro s p hp0 hpr
    simp [deallocate, hp0, hpr]

/-- Witness for C6: slot 64 is cached, heap pointer 4112 is released. -/
theorem c6_deallocate_routing_witness :
    deallocate 64 4 8 (initState 64 4 8) 64 =
      { initState 64 4 8 with localCacheHead := [64] }
    ∧ deallocate 64 4 8 (initState 64 4 8) 4112 =
      { initState 64 4 8 with freedHeap := [4112] } :=
  ⟨(c6_deallocate_routing 64 4 8).1 (initState 64 4 8) 64 (by decide) (by decide),
   (c6_deallocate_routing 64 4 8).2 (initState 64 4 8) 4112 (by decide) (by decide)⟩

/-- C7 is false of the code: there is no spill/refill policy.  On a 2-slot
pool a thread that allocates and then deallocates everything keeps the
entire capacity in its local cache and the global free list stays empty
(no high-water mark ever spills), and an `allocate` miss with an empty
cache pulls exactly one slot from the global free list, not a batch. -/
theorem c7_no_spill_no_batch_refill :
    ((deallocate 64 2 8 (deallocate 64 2 8 (allocSeq heapA 2 (initState 64 2 8)).2 64) 72).freeList
        = []
      ∧ (deallocate 64 2 8 (deallocate 64 2 8
          (allocSeq heapA 2 (initState 64 2 8)).2 64) 72).localCacheHead = [72, 64])
    ∧ allocate heapA { freeList := [64, 72], localCacheHead := [], freedHeap := [], heapNext := 0 } =
        (64, AllocPath.global,
          { freeList := [72], localCacheHead := [], freedHeap := [], heapNext := 0 }) := by
  decide

/-- C8 is false of the code on the overflow path: backing-store slots are
aligned (here `sizeof(Order)` = `alignof(Order)` = 64, `alignas(64)` buffer
at base 64), but the heap fallback `new std::byte[sizeof(T)]` only
guarantees the default new alignment of 16, and a legal 16-aligned heap
address (4112) is not 64-aligned. -/
theorem c8_overflow_misaligned :
    (slotAddr 64 64 0 % 64 = 0 ∧ slotAddr 64 64 1 % 64 = 0 ∧ slotAddr 64 64 2 % 64 = 0
      ∧ slotAddr 64 64 3 % 64 = 0)
    ∧ allocate heapA { freeList := [], localCacheHead := [], freedHeap := [], heapNext := 0 } =
        (4112, AllocPath.heap,
          { freeList := [], localCacheHead := [], freedHeap := [], heapNext := 1 })
    ∧ 4112 % 16 = 0 ∧ 4112 % 64 = 16 := by
  decide

/-- C9 is false of the code: `localCacheHead` is `static thread_local`, so
two instances of the same instantiation share one cache per thread.  On a
thread holding two fresh 2-slot pools (buffers at 64 and 1024), allocating
slot 64 from the first pool, returning it, and then allocating from the
second pool hands the first pool's slot 64 out of the second pool — an
address outside the second pool's buffer — while the second pool's own
free list is untouched. -/
theorem c9_shared_cache_cross_instance :
    (allocate1 heapA (twoPoolInit 64 1024 2 8)).1 = 64
    ∧ (allocate2 heapA
        (deallocate1 64 2 8 (allocate1 heapA (twoPoolInit 64 1024 2 8)).2.2 64)).1 = 64
    ∧ (allocate2 heapA
        (deallocate1 64 2 8 (allocate1 heapA (twoPoolInit 64 1024 2 8)).2.2 64)).2.1
        = AllocPath.cache
    ∧ fromHeapRange 1024 2 8 64 = true
    ∧ (allocate2 heapA
        (deallocate1 64 2 8 (allocate1 heapA (twoPoolInit 64 1024 2 8)).2.2 64)).2.2.freeList2
        = [1024, 1032] := by
  decide

/-- C10: `deallocate(nullptr)` is a no-op: it returns with the pool state
unchanged. -/
theorem c10_null_deallocate_noop (base n sz : Nat) (s : PoolState) :
    deallocate base n sz s 0 = s := by
  simp [deallocate]

end MemoryPool
